import Mathlib

/-!
Shallow embedding of `src/gravity.cc`: a 2D N-body gravity simulator.
The C++ program computes with `cpp_dec_float_50` (50-digit decimal reals);
we embed its arithmetic over the real numbers `ℝ`.  `atan2(y, x)` is the
angle of the point `(x, y)`, embedded as `Complex.arg ⟨x, y⟩`.  The entity
vector is embedded as a function `ℕ → Entity` together with the count of
live entities (3 in the reference configuration); in-place mutation of the
vector becomes `Function.update`.
-/

namespace Gravity

/-- Global constant `total_steps` from gravity.cc line 14. -/
def total_steps : ℕ := 1000000

/-- Global constant `steps_per_print = total_steps / 100` from gravity.cc line 15. -/
def steps_per_print : ℕ := total_steps / 100

/-- The index pairs visited by the nested iterator loop (gravity.cc lines
157-163), in visiting order: `outer` runs over all positions, `inner` over
the positions strictly before `outer`. -/
def pairIndices : ℕ → List (ℕ × ℕ)
  | 0 => []
  | n + 1 => pairIndices n ++ (List.range n).map fun inner => (inner, n)

/-- Number of report lines emitted by a run of `total` loop iterations
printing at every index divisible by `per`: one before the loop
(gravity.cc line 151), one per loop iteration whose zero-based index `i`
satisfies `i % steps_per_print == 0` (lines 171-174), and one after the
loop (line 177). -/
def reportsFor (total per : ℕ) : ℕ :=
  1 + ((Finset.range total).filter fun i => i % per = 0).card + 1

/-- Number of report lines the program emits, at its constants. -/
def reportCount : ℕ := reportsFor total_steps steps_per_print

noncomputable section

/-- Global constant `G` from gravity.cc line 13. -/
def G : ℝ := 6.67430e-11

/-- The `Entity` class: mass, position, velocity and accumulated
acceleration.  Velocity and acceleration have in-class initializers `= 0`
(gravity.cc lines 50-56), mirrored here as field defaults. -/
structure Entity where
  mass : ℝ
  x : ℝ
  y : ℝ
  v_x : ℝ := 0
  v_y : ℝ := 0
  a_x : ℝ := 0
  a_y : ℝ := 0

/-- The constructor `Entity(Real mass, Real x, Real y)` (gravity.cc line 25):
stores mass and position as given, leaves velocity and acceleration at their
zero initializers, and performs no validation of the mass. -/
def Entity.make (mass x y : ℝ) : Entity :=
  { mass := mass, x := x, y := y }

/-- Method `Entity::Update(Real dt)` (gravity.cc lines 39-48): velocity is advanced
first from the accumulated acceleration, then position is advanced using the
just-updated velocity, then the acceleration is reset to zero. -/
def Entity.Update (e : Entity) (dt : ℝ) : Entity :=
  let v_x := e.v_x + e.a_x * dt
  let v_y := e.v_y + e.a_y * dt
  let x := e.x + v_x * dt
  let y := e.y + v_y * dt
  { e with x := x, y := y, v_x := v_x, v_y := v_y, a_x := 0, a_y := 0 }

/-- The C standard library `atan2(y, x)`: the angle of the point `(x, y)`,
measured counter-clockwise from the positive x-axis, embedded as the
argument of the complex number `x + y*I`. -/
def atan2 (y x : ℝ) : ℝ := Complex.arg ⟨x, y⟩

/-- The squared Euclidean distance `dx*dx + dy*dy` computed inside
`Get_attraction` (gravity.cc lines 110-112). -/
def d_squared (a b : Entity) : ℝ :=
  let dx := b.x - a.x
  let dy := b.y - a.y
  dx * dx + dy * dy

/-- Function `Get_attraction(Entity const &a, Entity const &b)` (gravity.cc lines
108-115): `F = G * m1 * m2 / d2` with `d2` the squared distance between the
two positions.  The division is unguarded.  Both parameters are taken by
const reference, so the call modifies neither entity; the embedding makes
this structural by returning only the scalar. -/
def Get_attraction (a b : Entity) : ℝ :=
  G * a.mass * b.mass / d_squared a b

/-- Function `Add_force(Entity &entity_1, Entity &entity_2, Real force)` (gravity.cc
lines 129-142): resolves the scalar force along the angle
`theta = atan2(dy, dx)` with `(dx, dy)` = entity_1's position minus
entity_2's, then subtracts `f/m` from entity_1's acceleration and adds
`f/m` to entity_2's.  Returns the pair of updated entities. -/
def Add_force (entity_1 entity_2 : Entity) (force : ℝ) : Entity × Entity :=
  let dx := entity_1.x - entity_2.x
  let dy := entity_1.y - entity_2.y
  let theta := atan2 dy dx
  let f_x := force * Real.cos theta
  let f_y := force * Real.sin theta
  ({ entity_1 with
      a_x := entity_1.a_x - f_x / entity_1.mass
      a_y := entity_1.a_y - f_y / entity_1.mass },
   { entity_2 with
      a_x := entity_2.a_x + f_x / entity_2.mass
      a_y := entity_2.a_y + f_y / entity_2.mass })

/-- One iteration of the inner pair loop body (gravity.cc lines 161-162):
for the index pair `(inner, outer)`, compute
`force = Get_attraction(*outer, *inner)` and perform
`Add_force(*inner, *outer, force)`, writing both updated entities back into
the vector. -/
def applyPairForce (w : ℕ → Entity) (p : ℕ × ℕ) : ℕ → Entity :=
  let force := Get_attraction (w p.2) (w p.1)
  let r := Add_force (w p.1) (w p.2) force
  Function.update (Function.update w p.1 r.1) p.2 r.2

/-- The force-accumulation phase of one step of the main loop: fold the
pair-loop body over every visited index pair. -/
def forcePhase (n : ℕ) (w : ℕ → Entity) : ℕ → Entity :=
  (pairIndices n).foldl applyPairForce w

/-- One step of the main loop (gravity.cc lines 153-169): accumulate all
pairwise forces, then call `Update(dt)` on every entity. -/
def simStep (n : ℕ) (dt : ℝ) (w : ℕ → Entity) : ℕ → Entity :=
  fun i => Entity.Update (forcePhase n w i) dt

/-- The reference initial configuration (gravity.cc lines 146-149): three
bodies `(1, -1, 0)`, `(1, 1, 0)`, `(2, 1, 1)`, all at rest with zero
acceleration.  Only indices 0, 1, 2 are live. -/
def entities0 : ℕ → Entity := fun i =>
  if i = 0 then Entity.make 1 (-1) 0
  else if i = 1 then Entity.make 1 1 0
  else Entity.make 2 1 1

/-- The state of the reference simulation after `k` full steps of the main
loop with `dt = 0.01`. -/
def simRun (k : ℕ) : ℕ → Entity := (simStep 3 (0.01 : ℝ))^[k] entities0

/-- Total x-momentum of the first `n` entities. -/
def momX (n : ℕ) (w : ℕ → Entity) : ℝ :=
  ∑ i ∈ Finset.range n, (w i).mass * (w i).v_x

/-- Total y-momentum of the first `n` entities. -/
def momY (n : ℕ) (w : ℕ → Entity) : ℝ :=
  ∑ i ∈ Finset.range n, (w i).mass * (w i).v_y

/-- Mass-weighted sum of the accumulated x-accelerations of the first `n`
entities. -/
def accX (n : ℕ) (w : ℕ → Entity) : ℝ :=
  ∑ i ∈ Finset.range n, (w i).mass * (w i).a_x

/-- Mass-weighted sum of the accumulated y-accelerations of the first `n`
entities. -/
def accY (n : ℕ) (w : ℕ → Entity) : ℝ :=
  ∑ i ∈ Finset.range n, (w i).mass * (w i).a_y

/-- CLAIM C4: `Get_attraction(a, b)` returns `G * m_a * m_b / d^2` where
`d^2` is the squared Euclidean distance between the two positions and
`G = 6.67430e-11`.  The call modifies neither entity — structural in the
embedding, since `Get_attraction` consumes both entities immutably and
returns only the scalar. -/
theorem get_attraction_formula (a b : Entity) :
    Get_attraction a b =
      6.67430e-11 * a.mass * b.mass / ((b.x - a.x) ^ 2 + (b.y - a.y) ^ 2) ∧
    G = 6.67430e-11 := by
  constructor
  · unfold Get_attraction d_squared G
    ring_nf
  · rfl

/-- CLAIM C5: attraction is symmetric, `Get_attraction a b = Get_attraction b a`
for every pair of entities (the hypothesis of distinct positions in the claim
is not even needed: the identity holds for all inputs of the embedding). -/
theorem get_attraction_symm (a b : Entity) :
    Get_attraction a b = Get_attraction b a := by
  unfold Get_attraction d_squared G
  ring_nf

/-- CLAIM C2: `Update(dt)` advances velocity first from the accumulated
acceleration, then position from the just-updated velocity, then resets the
acceleration to zero; on the concrete instance `a = (2,0)`, `v = (0,0)`,
`x = (0,0)`, `dt = 1`, one `Update` yields `v = (2,0)`, `x = (2,0)`,
`a = (0,0)`. -/
theorem update_integration_order (e : Entity) (dt : ℝ) :
    ((e.Update dt).v_x = e.v_x + e.a_x * dt ∧
     (e.Update dt).v_y = e.v_y + e.a_y * dt ∧
     (e.Update dt).x = e.x + (e.v_x + e.a_x * dt) * dt ∧
     (e.Update dt).y = e.y + (e.v_y + e.a_y * dt) * dt ∧
     (e.Update dt).a_x = 0 ∧ (e.Update dt).a_y = 0) ∧
    ((Entity.Update { mass := 1, x := 0, y := 0, a_x := 2, a_y := 0 } 1).v_x = 2 ∧
     (Entity.Update { mass := 1, x := 0, y := 0, a_x := 2, a_y := 0 } 1).v_y = 0 ∧
     (Entity.Update { mass := 1, x := 0, y := 0, a_x := 2, a_y := 0 } 1).x = 2 ∧
     (Entity.Update { mass := 1, x := 0, y := 0, a_x := 2, a_y := 0 } 1).y = 0 ∧
     (Entity.Update { mass := 1, x := 0, y := 0, a_x := 2, a_y := 0 } 1).a_x = 0 ∧
     (Entity.Update { mass := 1, x := 0, y := 0, a_x := 2, a_y := 0 } 1).a_y = 0) := by
  refine ⟨⟨rfl, rfl, rfl, rfl, rfl, rfl⟩, ?_⟩
  refine ⟨?_, ?_, ?_, ?_, rfl, rfl⟩ <;> simp [Entity.Update]

/-- CLAIM C8: the divisor of `Get_attraction` is the squared distance
`d_squared`, which vanishes exactly when the two positions coincide, and is
strictly positive when they differ; the division itself is unguarded
(`Get_attraction` is literally the quotient by `d_squared`).  The C++
behaviour at `d_squared = 0` (inf/NaN of `cpp_dec_float`) has no
counterpart in `ℝ`; its statable content is that the divisor is zero
exactly there. -/
theorem coincident_singularity (a b : Entity) :
    (d_squared a b = 0 ↔ a.x = b.x ∧ a.y = b.y) ∧
    (¬(a.x = b.x ∧ a.y = b.y) → 0 < d_squared a b) ∧
    Get_attraction a b = G * a.mass * b.mass / d_squared a b := by
  have hd : d_squared a b = (b.x - a.x) * (b.x - a.x) + (b.y - a.y) * (b.y - a.y) := by
    simp only [d_squared]
  have hx2 := mul_self_nonneg (b.x - a.x)
  have hy2 := mul_self_nonneg (b.y - a.y)
  refine ⟨⟨?_, ?_⟩, ?_, rfl⟩
  · intro h
    rw [hd] at h
    constructor
    · have : (b.x - a.x) * (b.x - a.x) = 0 := by nlinarith
      have := sub_eq_zero.mp (mul_self_eq_zero.mp this)
      exact this.symm
    · have : (b.y - a.y) * (b.y - a.y) = 0 := by nlinarith
      have := sub_eq_zero.mp (mul_self_eq_zero.mp this)
      exact this.symm
  · rintro ⟨hx, hy⟩
    rw [hd, ← hx, ← hy]
    ring
  · intro h
    rw [hd]
    rcases not_and_or.mp h with hne | hne
    · have : 0 < (b.x - a.x) * (b.x - a.x) :=
        mul_self_pos.mpr (sub_ne_zero.mpr fun hc => hne hc.symm)
      nlinarith
    · have : 0 < (b.y - a.y) * (b.y - a.y) :=
        mul_self_pos.mpr (sub_ne_zero.mpr fun hc => hne hc.symm)
      nlinarith

/-- Witness for `coincident_singularity` at two concrete entities one unit
apart: the squared distance is strictly positive. -/
theorem coincident_singularity_witness :
    0 < d_squared (Entity.make 1 0 0) (Entity.make 1 1 0) :=
  (coincident_singularity (Entity.make 1 0 0) (Entity.make 1 1 0)).2.1
    (by simp [Entity.make])

/-- Multiples of a positive `k` below `k * m` number exactly `m`. -/
lemma card_multiples_range (k m : ℕ) (hk : 0 < k) :
    ((Finset.range (k * m)).filter fun i => i % k = 0).card = m := by
  have himg : ((Finset.range (k * m)).filter fun i => i % k = 0)
      = (Finset.range m).image fun j => k * j := by
    ext i
    simp only [Finset.mem_filter, Finset.mem_range, Finset.mem_image]
    constructor
    · rintro ⟨hlt, hmod⟩
      obtain ⟨j, rfl⟩ := Nat.dvd_of_mod_eq_zero hmod
      exact ⟨j, lt_of_mul_lt_mul_left hlt (Nat.zero_le k), rfl⟩
    · rintro ⟨j, hj, rfl⟩
      exact ⟨mul_lt_mul_of_pos_left hj hk, Nat.mul_mod_right k j⟩
  rw [himg, Finset.card_image_of_injective _ (mul_right_injective₀ hk.ne'),
    Finset.card_range]

/-- Unfolding lemma for `reportsFor`, kept parametric so that no large
`Finset.range` literal is ever normalized. -/
lemma reportsFor_card (total per c : ℕ)
    (h : ((Finset.range total).filter fun i => i % per = 0).card = c) :
    reportsFor total per = 1 + c + 1 := by
  unfold reportsFor
  rw [h]

/-- CLAIM C6: with `total_steps = 1000000` and
`steps_per_print = total_steps / 100 = 10000`, the loop prints at exactly
the 100 iterations whose zero-based index is a multiple of 10000, and with
the report before the loop and the report after it the program emits 102
report lines. -/
theorem report_cadence :
    steps_per_print = 10000 ∧
    ((Finset.range total_steps).filter fun i => i % steps_per_print = 0).card = 100 ∧
    reportCount = 102 := by
  have hs : steps_per_print = 10000 := by norm_num [steps_per_print, total_steps]
  have hcard :
      ((Finset.range total_steps).filter fun i => i % steps_per_print = 0).card = 100 := by
    rw [hs, show total_steps = 10000 * 100 by norm_num [total_steps]]
    exact card_multiples_range 10000 100 (by norm_num)
  refine ⟨hs, hcard, ?_⟩
  show reportsFor total_steps steps_per_print = 102
  rw [reportsFor_card total_steps steps_per_print 100 hcard]

/-- Cosine of the `atan2` angle of `(x, y)` is `x` over the distance. -/
lemma cos_atan2 (y x : ℝ) (h : ¬(x = 0 ∧ y = 0)) :
    Real.cos (atan2 y x) = x / Real.sqrt (x * x + y * y) := by
  have hz : (⟨x, y⟩ : ℂ) ≠ 0 := by
    intro hc
    apply h
    refine ⟨?_, ?_⟩
    · simpa using congrArg Complex.re hc
    · simpa using congrArg Complex.im hc
  rw [atan2, Complex.cos_arg hz, Complex.abs_apply, Complex.normSq_mk]

/-- Sine of the `atan2` angle of `(x, y)` is `y` over the distance. -/
lemma sin_atan2 (y x : ℝ) :
    Real.sin (atan2 y x) = y / Real.sqrt (x * x + y * y) := by
  rw [atan2, Complex.sin_arg, Complex.abs_apply, Complex.normSq_mk]

lemma Add_force_fst_ax (e1 e2 : Entity) (F : ℝ) :
    (Add_force e1 e2 F).1.a_x
      = e1.a_x - F * Real.cos (atan2 (e1.y - e2.y) (e1.x - e2.x)) / e1.mass := rfl

lemma Add_force_fst_ay (e1 e2 : Entity) (F : ℝ) :
    (Add_force e1 e2 F).1.a_y
      = e1.a_y - F * Real.sin (atan2 (e1.y - e2.y) (e1.x - e2.x)) / e1.mass := rfl

lemma Add_force_snd_ax (e1 e2 : Entity) (F : ℝ) :
    (Add_force e1 e2 F).2.a_x
      = e2.a_x + F * Real.cos (atan2 (e1.y - e2.y) (e1.x - e2.x)) / e2.mass := rfl

lemma Add_force_snd_ay (e1 e2 : Entity) (F : ℝ) :
    (Add_force e1 e2 F).2.a_y
      = e2.a_y + F * Real.sin (atan2 (e1.y - e2.y) (e1.x - e2.x)) / e2.mass := rfl

/-- Distinct positions give a strictly positive separation distance. -/
lemma dist_pos_of_ne (e1 e2 : Entity) (hne : ¬(e1.x = e2.x ∧ e1.y = e2.y)) :
    0 < Real.sqrt ((e1.x - e2.x) * (e1.x - e2.x) + (e1.y - e2.y) * (e1.y - e2.y)) := by
  apply Real.sqrt_pos.mpr
  rcases not_and_or.mp hne with hx | hy
  · have : 0 < (e1.x - e2.x) * (e1.x - e2.x) := mul_self_pos.mpr (sub_ne_zero.mpr hx)
    nlinarith [mul_self_nonneg (e1.y - e2.y)]
  · have : 0 < (e1.y - e2.y) * (e1.y - e2.y) := mul_self_pos.mpr (sub_ne_zero.mpr hy)
    nlinarith [mul_self_nonneg (e1.x - e2.x)]

/-- CLAIM C3: `Add_force` applies acceleration increments satisfying
Newton's third law: `mass_1` times the increment to entity 1 is the
negation of `mass_2` times the increment to entity 2, component-wise, and
both increments are scalar multiples of the separation vector between the
two positions. -/
theorem add_force_antisymmetry (e1 e2 : Entity) (F : ℝ)
    (h1 : e1.mass ≠ 0) (h2 : e2.mass ≠ 0)
    (hne : ¬(e1.x = e2.x ∧ e1.y = e2.y)) :
    (e1.mass * ((Add_force e1 e2 F).1.a_x - e1.a_x)
        = -(e2.mass * ((Add_force e1 e2 F).2.a_x - e2.a_x)) ∧
     e1.mass * ((Add_force e1 e2 F).1.a_y - e1.a_y)
        = -(e2.mass * ((Add_force e1 e2 F).2.a_y - e2.a_y))) ∧
    (∃ c1 c2 : ℝ,
      (Add_force e1 e2 F).1.a_x - e1.a_x = c1 * (e1.x - e2.x) ∧
      (Add_force e1 e2 F).1.a_y - e1.a_y = c1 * (e1.y - e2.y) ∧
      (Add_force e1 e2 F).2.a_x - e2.a_x = c2 * (e1.x - e2.x) ∧
      (Add_force e1 e2 F).2.a_y - e2.a_y = c2 * (e1.y - e2.y)) := by
  have hd := dist_pos_of_ne e1 e2 hne
  set dx := e1.x - e2.x with hdx
  set dy := e1.y - e2.y with hdy
  set d := Real.sqrt (dx * dx + dy * dy) with hdd
  have hne' : ¬(dx = 0 ∧ dy = 0) := by
    rintro ⟨hx, hy⟩
    exact hne ⟨sub_eq_zero.mp hx, sub_eq_zero.mp hy⟩
  have hcos : Real.cos (atan2 dy dx) = dx / d := cos_atan2 dy dx hne'
  have hsin : Real.sin (atan2 dy dx) = dy / d := sin_atan2 dy dx
  constructor
  · constructor
    · rw [Add_force_fst_ax, Add_force_snd_ax]
      field_simp
      ring
    · rw [Add_force_fst_ay, Add_force_snd_ay]
      field_simp
      ring
  · refine ⟨-(F / (e1.mass * d)), F / (e2.mass * d), ?_, ?_, ?_, ?_⟩
    · rw [Add_force_fst_ax, hcos]
      field_simp
      ring
    · rw [Add_force_fst_ay, hsin]
      field_simp
      ring
    · rw [Add_force_snd_ax, hcos]
      field_simp
      ring
    · rw [Add_force_snd_ay, hsin]
      field_simp
      ring

/-- Witness for `add_force_antisymmetry` at two unit masses one unit apart
with unit force. -/
theorem add_force_antisymmetry_witness :
    (Entity.make 1 0 0).mass *
        ((Add_force (Entity.make 1 0 0) (Entity.make 1 1 0) 1).1.a_x
          - (Entity.make 1 0 0).a_x)
      = -((Entity.make 1 1 0).mass *
        ((Add_force (Entity.make 1 0 0) (Entity.make 1 1 0) 1).2.a_x
          - (Entity.make 1 1 0).a_x)) :=
  (add_force_antisymmetry (Entity.make 1 0 0) (Entity.make 1 1 0) 1
    (by simp [Entity.make]) (by simp [Entity.make]) (by simp [Entity.make])).1.1

/-- CLAIM C10 (implicit): with a positive force magnitude and distinct
positions, the increment `Add_force` applies to entity 1 points from
entity 1's position toward entity 2's, and the increment to entity 2 points
from entity 2's toward entity 1's; moreover `Get_attraction` is positive
for positive masses, so the driver's call pattern
`Add_force(*inner, *outer, Get_attraction(*outer, *inner))` makes every
pairwise force attractive. -/
theorem attractive_sign_convention (e1 e2 : Entity) (F : ℝ)
    (hF : 0 < F) (h1 : 0 < e1.mass) (h2 : 0 < e2.mass)
    (hne : ¬(e1.x = e2.x ∧ e1.y = e2.y)) :
    (∃ c1 : ℝ, 0 < c1 ∧
      (Add_force e1 e2 F).1.a_x - e1.a_x = c1 * (e2.x - e1.x) ∧
      (Add_force e1 e2 F).1.a_y - e1.a_y = c1 * (e2.y - e1.y)) ∧
    (∃ c2 : ℝ, 0 < c2 ∧
      (Add_force e1 e2 F).2.a_x - e2.a_x = c2 * (e1.x - e2.x) ∧
      (Add_force e1 e2 F).2.a_y - e2.a_y = c2 * (e1.y - e2.y)) ∧
    0 < Get_attraction e2 e1 := by
  have hd := dist_pos_of_ne e1 e2 hne
  set dx := e1.x - e2.x with hdx
  set dy := e1.y - e2.y with hdy
  set d := Real.sqrt (dx * dx + dy * dy) with hdd
  have hne' : ¬(dx = 0 ∧ dy = 0) := by
    rintro ⟨hx, hy⟩
    exact hne ⟨sub_eq_zero.mp hx, sub_eq_zero.mp hy⟩
  have hcos : Real.cos (atan2 dy dx) = dx / d := cos_atan2 dy dx hne'
  have hsin : Real.sin (atan2 dy dx) = dy / d := sin_atan2 dy dx
  refine ⟨⟨F / (e1.mass * d), ?_, ?_, ?_⟩, ⟨F / (e2.mass * d), ?_, ?_, ?_⟩, ?_⟩
  · exact div_pos hF (mul_pos h1 hd)
  · rw [Add_force_fst_ax, hcos]
    field_simp
    ring
  · rw [Add_force_fst_ay, hsin]
    field_simp
    ring
  · exact div_pos hF (mul_pos h2 hd)
  · rw [Add_force_snd_ax, hcos]
    field_simp
    ring
  · rw [Add_force_snd_ay, hsin]
    field_simp
    ring
  · have hG : (0 : ℝ) < G := by norm_num [G]
    have hds : 0 < d_squared e2 e1 := by
      have : d_squared e2 e1 = dx * dx + dy * dy := by
        simp only [d_squared, hdx, hdy]
      rw [this]
      exact Real.sqrt_pos.mp hd
    exact div_pos (mul_pos (mul_pos hG h2) h1) hds

/-- Witness for `attractive_sign_convention` at two unit masses one unit
apart with unit force: the attraction magnitude computed by the driver's
call pattern is positive. -/
theorem attractive_sign_convention_witness :
    0 < Get_attraction (Entity.make 1 1 0) (Entity.make 1 0 0) :=
  (attractive_sign_convention (Entity.make 1 0 0) (Entity.make 1 1 0) 1
    (by simp) (by simp [Entity.make]) (by simp [Entity.make])
    (by simp [Entity.make])).2.2

/-- A pair is visited by the nested iterator loop exactly when its first
index is strictly below its second and the second is in range. -/
lemma mem_pairIndices (n i j : ℕ) : (i, j) ∈ pairIndices n ↔ i < j ∧ j < n := by
  induction n with
  | zero => simp [pairIndices]
  | succ n ih =>
    simp only [pairIndices, List.mem_append, ih, List.mem_map, List.mem_range]
    constructor
    · rintro (⟨hij, hjn⟩ | ⟨a, ha, heq⟩)
      · exact ⟨hij, Nat.lt_succ_of_lt hjn⟩
      · have h1 : a = i := congrArg Prod.fst heq
        have h2 : n = j := congrArg Prod.snd heq
        subst h1
        subst h2
        exact ⟨ha, Nat.lt_succ_self _⟩
    · rintro ⟨hij, hjn⟩
      rcases Nat.lt_succ_iff_lt_or_eq.mp hjn with h | rfl
      · exact Or.inl ⟨hij, h⟩
      · exact Or.inr ⟨i, hij, rfl⟩

/-- The visiting order of the nested iterator loop repeats no index pair. -/
lemma nodup_pairIndices (n : ℕ) : (pairIndices n).Nodup := by
  induction n with
  | zero => simp [pairIndices]
  | succ n ih =>
    simp only [pairIndices]
    refine List.Nodup.append ih ((List.nodup_range n).map ?_) ?_
    · intro a b hab
      simpa using hab
    · intro p hp1 hp2
      obtain ⟨a, _, rfl⟩ := List.mem_map.mp hp2
      have := (mem_pairIndices n a n).mp hp1
      exact absurd this.2 (lt_irrefl n)

lemma Add_force_fst_mass (e1 e2 : Entity) (F : ℝ) :
    (Add_force e1 e2 F).1.mass = e1.mass := rfl

lemma Add_force_snd_mass (e1 e2 : Entity) (F : ℝ) :
    (Add_force e1 e2 F).2.mass = e2.mass := rfl

/-- The pair-loop body touches only accelerations: mass, position and
velocity of every slot of the vector are untouched. -/
lemma applyPairForce_fields (w : ℕ → Entity) (p : ℕ × ℕ) (i : ℕ) :
    ((applyPairForce w p) i).mass = (w i).mass ∧
    ((applyPairForce w p) i).x = (w i).x ∧
    ((applyPairForce w p) i).y = (w i).y ∧
    ((applyPairForce w p) i).v_x = (w i).v_x ∧
    ((applyPairForce w p) i).v_y = (w i).v_y := by
  rcases eq_or_ne i p.2 with h2 | h2
  · subst h2
    simp only [applyPairForce, Function.update_same]
    refine ⟨?_, ?_, ?_, ?_, ?_⟩ <;> first | rfl | trivial
  · rcases eq_or_ne i p.1 with h1 | h1
    · subst h1
      simp only [applyPairForce, Function.update_noteq h2, Function.update_same]
      refine ⟨?_, ?_, ?_, ?_, ?_⟩ <;> first | trivial | rfl
    · simp only [applyPairForce, Function.update_noteq h2, Function.update_noteq h1]
      refine ⟨?_, ?_, ?_, ?_, ?_⟩ <;> first | trivial | rfl

/-- The whole force-accumulation fold touches only accelerations. -/
lemma foldl_fields (l : List (ℕ × ℕ)) (w : ℕ → Entity) (i : ℕ) :
    ((l.foldl applyPairForce w) i).mass = (w i).mass ∧
    ((l.foldl applyPairForce w) i).x = (w i).x ∧
    ((l.foldl applyPairForce w) i).y = (w i).y ∧
    ((l.foldl applyPairForce w) i).v_x = (w i).v_x ∧
    ((l.foldl applyPairForce w) i).v_y = (w i).v_y := by
  induction l generalizing w with
  | nil => exact ⟨rfl, rfl, rfl, rfl, rfl⟩
  | cons p l ih =>
    simp only [List.foldl_cons]
    obtain ⟨h1, h2, h3, h4, h5⟩ := ih (applyPairForce w p)
    obtain ⟨g1, g2, g3, g4, g5⟩ := applyPairForce_fields w p i
    exact ⟨h1.trans g1, h2.trans g2, h3.trans g3, h4.trans g4, h5.trans g5⟩

/-- Specialization of `foldl_fields` to `forcePhase`. -/
lemma forcePhase_fields (n : ℕ) (w : ℕ → Entity) (i : ℕ) :
    ((forcePhase n w) i).mass = (w i).mass ∧
    ((forcePhase n w) i).x = (w i).x ∧
    ((forcePhase n w) i).y = (w i).y ∧
    ((forcePhase n w) i).v_x = (w i).v_x ∧
    ((forcePhase n w) i).v_y = (w i).v_y :=
  foldl_fields (pairIndices n) w i

/-- CLAIM C7: in every step of the driver loop, every unordered pair of
distinct in-range indices is visited by the nested pair loop exactly once
(in exactly one of its two orientations), the loop never pairs an entity
with itself, and the whole force-accumulation phase completes before any
`Update(dt)` call: the entities fed to `Update` still carry their original
positions and velocities, only their accelerations having been
accumulated, and the step is exactly `Update` applied after `forcePhase`. -/
theorem pair_enumeration (n i j : ℕ) (hne : i ≠ j) (hi : i < n) (hj : j < n) :
    (Multiset.count (i, j) (pairIndices n : Multiset (ℕ × ℕ))
      + Multiset.count (j, i) (pairIndices n : Multiset (ℕ × ℕ)) = 1) ∧
    (∀ p ∈ pairIndices n, p.1 ≠ p.2) ∧
    (∀ w k, ((forcePhase n w) k).x = (w k).x ∧ ((forcePhase n w) k).y = (w k).y ∧
      ((forcePhase n w) k).v_x = (w k).v_x ∧ ((forcePhase n w) k).v_y = (w k).v_y) ∧
    (∀ dt w k, simStep n dt w k = Entity.Update (forcePhase n w k) dt) := by
  refine ⟨?_, ?_, ?_, fun dt w k => rfl⟩
  · rcases Nat.lt_or_ge i j with hij | hij
    · have h1 : Multiset.count (i, j) (pairIndices n : Multiset (ℕ × ℕ)) = 1 :=
        Multiset.count_eq_one_of_mem (Multiset.coe_nodup.mpr (nodup_pairIndices n))
          (Multiset.mem_coe.mpr ((mem_pairIndices n i j).mpr ⟨hij, hj⟩))
      have h0 : Multiset.count (j, i) (pairIndices n : Multiset (ℕ × ℕ)) = 0 := by
        refine Multiset.count_eq_zero_of_not_mem fun hc => ?_
        have := (mem_pairIndices n j i).mp (Multiset.mem_coe.mp hc)
        omega
      omega
    · have hij' : j < i := lt_of_le_of_ne hij (Ne.symm hne)
      have h1 : Multiset.count (j, i) (pairIndices n : Multiset (ℕ × ℕ)) = 1 :=
        Multiset.count_eq_one_of_mem (Multiset.coe_nodup.mpr (nodup_pairIndices n))
          (Multiset.mem_coe.mpr ((mem_pairIndices n j i).mpr ⟨hij', hi⟩))
      have h0 : Multiset.count (i, j) (pairIndices n : Multiset (ℕ × ℕ)) = 0 := by
        refine Multiset.count_eq_zero_of_not_mem fun hc => ?_
        have := (mem_pairIndices n i j).mp (Multiset.mem_coe.mp hc)
        omega
      omega
  · rintro ⟨a, b⟩ hp
    have hm := (mem_pairIndices n a b).mp hp
    intro hab
    have hab' : a = b := hab
    have h1 := hm.1
    omega
  · intro w k
    obtain ⟨_, h2, h3, h4, h5⟩ := forcePhase_fields n w k
    exact ⟨h2, h3, h4, h5⟩

/-- Witness for `pair_enumeration` with three entities and the pair of the
first two indices: the loop visits the unordered pair exactly once. -/
theorem pair_enumeration_witness :
    Multiset.count (0, 1) (pairIndices 3 : Multiset (ℕ × ℕ))
      + Multiset.count (1, 0) (pairIndices 3 : Multiset (ℕ × ℕ)) = 1 :=
  (pair_enumeration 3 0 1 (by decide) (by decide) (by decide)).1

/-- Sum of a function of the entities after the double in-place write of the
pair-loop body, in terms of the original sum. -/
lemma sum_update_two (n i j : ℕ) (hij : i ≠ j) (hi : i < n) (hj : j < n)
    (f : Entity → ℝ) (w : ℕ → Entity) (e1 e2 : Entity) :
    ∑ k ∈ Finset.range n, f (Function.update (Function.update w i e1) j e2 k)
      = (∑ k ∈ Finset.range n, f (w k)) + (f e1 - f (w i)) + (f e2 - f (w j)) := by
  have hwi : Function.update (Function.update w i e1) j e2 i = e1 := by
    rw [Function.update_noteq hij, Function.update_same]
  have hwj : Function.update (Function.update w i e1) j e2 j = e2 := by
    rw [Function.update_same]
  have hsub : ({i, j} : Finset ℕ) ⊆ Finset.range n := by
    intro k hk
    rcases Finset.mem_insert.mp hk with rfl | hk
    · exact Finset.mem_range.mpr hi
    · rw [Finset.mem_singleton] at hk
      subst hk
      exact Finset.mem_range.mpr hj
  have hvanish : ∀ k ∈ Finset.range n, k ∉ ({i, j} : Finset ℕ) →
      f (Function.update (Function.update w i e1) j e2 k) - f (w k) = 0 := by
    intro k _ hk
    have hki : k ≠ i := fun hc => hk (by simp [hc])
    have hkj : k ≠ j := fun hc => hk (by simp [hc])
    rw [Function.update_noteq hkj, Function.update_noteq hki, sub_self]
  have hdiff : ∑ k ∈ Finset.range n,
        (f (Function.update (Function.update w i e1) j e2 k) - f (w k))
      = (f e1 - f (w i)) + (f e2 - f (w j)) := by
    rw [← Finset.sum_subset hsub hvanish, Finset.sum_pair hij, hwi, hwj]
  have hsplit : ∑ k ∈ Finset.range n, f (Function.update (Function.update w i e1) j e2 k)
      = (∑ k ∈ Finset.range n, f (w k)) + ∑ k ∈ Finset.range n,
          (f (Function.update (Function.update w i e1) j e2 k) - f (w k)) := by
    rw [← Finset.sum_add_distrib]
    exact Finset.sum_congr rfl fun k _ => by ring
  rw [hsplit, hdiff]
  ring

/-- One pair-loop body application leaves the mass-weighted acceleration
sums unchanged: the two acceleration increments cancel in the sum. -/
lemma applyPairForce_acc (n : ℕ) (w : ℕ → Entity) (p : ℕ × ℕ) (hij : p.1 ≠ p.2)
    (hi : p.1 < n) (hj : p.2 < n)
    (hmi : (w p.1).mass ≠ 0) (hmj : (w p.2).mass ≠ 0) :
    accX n (applyPairForce w p) = accX n w ∧ accY n (applyPairForce w p) = accY n w := by
  have happ : applyPairForce w p
      = Function.update
          (Function.update w p.1
            (Add_force (w p.1) (w p.2) (Get_attraction (w p.2) (w p.1))).1) p.2
          (Add_force (w p.1) (w p.2) (Get_attraction (w p.2) (w p.1))).2 := rfl
  constructor
  · have h := sum_update_two n p.1 p.2 hij hi hj (fun e => e.mass * e.a_x) w
      (Add_force (w p.1) (w p.2) (Get_attraction (w p.2) (w p.1))).1
      (Add_force (w p.1) (w p.2) (Get_attraction (w p.2) (w p.1))).2
    rw [accX, accX, happ, h, Add_force_fst_mass, Add_force_snd_mass,
      Add_force_fst_ax, Add_force_snd_ax]
    field_simp
    ring
  · have h := sum_update_two n p.1 p.2 hij hi hj (fun e => e.mass * e.a_y) w
      (Add_force (w p.1) (w p.2) (Get_attraction (w p.2) (w p.1))).1
      (Add_force (w p.1) (w p.2) (Get_attraction (w p.2) (w p.1))).2
    rw [accY, accY, happ, h, Add_force_fst_mass, Add_force_snd_mass,
      Add_force_fst_ay, Add_force_snd_ay]
    field_simp
    ring

/-- The fold of the pair-loop body over any list of well-formed index pairs
preserves the mass-weighted acceleration sums. -/
lemma foldl_acc (n : ℕ) (l : List (ℕ × ℕ))
    (hl : ∀ p ∈ l, p.1 ≠ p.2 ∧ p.1 < n ∧ p.2 < n) :
    ∀ w : ℕ → Entity, (∀ i, i < n → (w i).mass ≠ 0) →
      accX n (l.foldl applyPairForce w) = accX n w ∧
      accY n (l.foldl applyPairForce w) = accY n w := by
  induction l with
  | nil => exact fun w _ => ⟨rfl, rfl⟩
  | cons p l ih =>
    intro w hm
    have hp := hl p (List.mem_cons_self p l)
    have hstep := applyPairForce_acc n w p hp.1 hp.2.1 hp.2.2
      (hm p.1 hp.2.1) (hm p.2 hp.2.2)
    have hm' : ∀ i, i < n → ((applyPairForce w p) i).mass ≠ 0 := fun i hi => by
      rw [(applyPairForce_fields w p i).1]
      exact hm i hi
    have hrest := ih (fun q hq => hl q (List.mem_cons_of_mem p hq)) (applyPairForce w p) hm'
    simp only [List.foldl_cons]
    exact ⟨hrest.1.trans hstep.1, hrest.2.trans hstep.2⟩

/-- The whole force-accumulation phase preserves the mass-weighted
acceleration sums. -/
lemma forcePhase_acc (n : ℕ) (w : ℕ → Entity) (hm : ∀ i, i < n → (w i).mass ≠ 0) :
    accX n (forcePhase n w) = accX n w ∧ accY n (forcePhase n w) = accY n w := by
  refine foldl_acc n (pairIndices n) ?_ w hm
  rintro ⟨a, b⟩ hp
  have hab := (mem_pairIndices n a b).mp hp
  exact ⟨Nat.ne_of_lt hab.1, lt_trans hab.1 hab.2, hab.2⟩

lemma Update_mass (e : Entity) (dt : ℝ) : (e.Update dt).mass = e.mass := rfl

lemma Update_vx (e : Entity) (dt : ℝ) : (e.Update dt).v_x = e.v_x + e.a_x * dt := rfl

lemma Update_vy (e : Entity) (dt : ℝ) : (e.Update dt).v_y = e.v_y + e.a_y * dt := rfl

/-- One simulation step preserves every entity's mass. -/
lemma simStep_mass (n : ℕ) (dt : ℝ) (w : ℕ → Entity) (i : ℕ) :
    (simStep n dt w i).mass = (w i).mass :=
  (forcePhase_fields n w i).1

/-- One simulation step started with all accelerations zero preserves the
total momentum. -/
lemma simStep_mom (n : ℕ) (dt : ℝ) (w : ℕ → Entity)
    (hm : ∀ i, i < n → (w i).mass ≠ 0)
    (ha : ∀ i, i < n → (w i).a_x = 0 ∧ (w i).a_y = 0) :
    momX n (simStep n dt w) = momX n w ∧ momY n (simStep n dt w) = momY n w := by
  have hfp := forcePhase_acc n w hm
  have haccx : accX n w = 0 := Finset.sum_eq_zero fun i hi => by
    rw [(ha i (Finset.mem_range.mp hi)).1, mul_zero]
  have haccy : accY n w = 0 := Finset.sum_eq_zero fun i hi => by
    rw [(ha i (Finset.mem_range.mp hi)).2, mul_zero]
  have haccfpx : ∑ i ∈ Finset.range n, (w i).mass * (forcePhase n w i).a_x = 0 := by
    have : ∑ i ∈ Finset.range n, (w i).mass * (forcePhase n w i).a_x
        = accX n (forcePhase n w) :=
      Finset.sum_congr rfl fun i _ => by rw [(forcePhase_fields n w i).1]
    rw [this, hfp.1, haccx]
  have haccfpy : ∑ i ∈ Finset.range n, (w i).mass * (forcePhase n w i).a_y = 0 := by
    have : ∑ i ∈ Finset.range n, (w i).mass * (forcePhase n w i).a_y
        = accY n (forcePhase n w) :=
      Finset.sum_congr rfl fun i _ => by rw [(forcePhase_fields n w i).1]
    rw [this, hfp.2, haccy]
  constructor
  · have hx : ∀ i ∈ Finset.range n,
        (simStep n dt w i).mass * (simStep n dt w i).v_x
          = (w i).mass * (w i).v_x + (w i).mass * (forcePhase n w i).a_x * dt := by
      intro i _
      obtain ⟨hmass, _, _, hvx, _⟩ := forcePhase_fields n w i
      show (Entity.Update (forcePhase n w i) dt).mass
          * (Entity.Update (forcePhase n w i) dt).v_x = _
      rw [Update_mass, Update_vx, hmass, hvx]
      ring
    calc momX n (simStep n dt w)
        = ∑ i ∈ Finset.range n,
            ((w i).mass * (w i).v_x + (w i).mass * (forcePhase n w i).a_x * dt) :=
          Finset.sum_congr rfl hx
      _ = momX n w
          + (∑ i ∈ Finset.range n, (w i).mass * (forcePhase n w i).a_x) * dt := by
          rw [Finset.sum_add_distrib, momX, Finset.sum_mul]
      _ = momX n w := by rw [haccfpx, zero_mul, add_zero]
  · have hy : ∀ i ∈ Finset.range n,
        (simStep n dt w i).mass * (simStep n dt w i).v_y
          = (w i).mass * (w i).v_y + (w i).mass * (forcePhase n w i).a_y * dt := by
      intro i _
      obtain ⟨hmass, _, _, _, hvy⟩ := forcePhase_fields n w i
      show (Entity.Update (forcePhase n w i) dt).mass
          * (Entity.Update (forcePhase n w i) dt).v_y = _
      rw [Update_mass, Update_vy, hmass, hvy]
      ring
    calc momY n (simStep n dt w)
        = ∑ i ∈ Finset.range n,
            ((w i).mass * (w i).v_y + (w i).mass * (forcePhase n w i).a_y * dt) :=
          Finset.sum_congr rfl hy
      _ = momY n w
          + (∑ i ∈ Finset.range n, (w i).mass * (forcePhase n w i).a_y) * dt := by
          rw [Finset.sum_add_distrib, momY, Finset.sum_mul]
      _ = momY n w := by rw [haccfpy, zero_mul, add_zero]

lemma simRun_succ (k : ℕ) : simRun (k + 1) = simStep 3 (0.01 : ℝ) (simRun k) :=
  Function.iterate_succ_apply' (simStep 3 (0.01 : ℝ)) k entities0

/-- The reference masses 1, 1, 2 are all nonzero. -/
lemma entities0_mass : ∀ i, i < 3 → (entities0 i).mass ≠ 0 := by
  intro i _
  unfold entities0 Entity.make
  split_ifs <;> norm_num

/-- The reference configuration starts with zero accelerations. -/
lemma entities0_acc : ∀ i, i < 3 → (entities0 i).a_x = 0 ∧ (entities0 i).a_y = 0 := by
  intro i _
  unfold entities0 Entity.make
  split_ifs <;> exact ⟨rfl, rfl⟩

/-- The reference configuration starts at rest: zero total momentum. -/
lemma entities0_mom : momX 3 entities0 = 0 ∧ momY 3 entities0 = 0 := by
  constructor <;>
  · refine Finset.sum_eq_zero fun i _ => ?_
    unfold entities0 Entity.make
    split_ifs <;> simp

/-- Invariant of the reference run: nonzero masses, zero accelerations at
step boundaries, zero total momentum. -/
lemma simRun_inv (k : ℕ) :
    (∀ i, i < 3 → (simRun k i).mass ≠ 0) ∧
    (∀ i, i < 3 → (simRun k i).a_x = 0 ∧ (simRun k i).a_y = 0) ∧
    momX 3 (simRun k) = 0 ∧ momY 3 (simRun k) = 0 := by
  induction k with
  | zero => exact ⟨entities0_mass, entities0_acc, entities0_mom.1, entities0_mom.2⟩
  | succ k ih =>
    obtain ⟨hm, ha, hx, hy⟩ := ih
    have hmom := simStep_mom 3 (0.01 : ℝ) (simRun k) hm ha
    refine ⟨?_, ?_, ?_, ?_⟩
    · intro i hi
      rw [simRun_succ, simStep_mass]
      exact hm i hi
    · intro i _
      rw [simRun_succ]
      exact ⟨rfl, rfl⟩
    · rw [simRun_succ, hmom.1]
      exact hx
    · rw [simRun_succ, hmom.2]
      exact hy

/-- CLAIM C1: one step of the main loop, started (as every step of the
program is) with all accelerations zero, leaves the total momentum
`sum of mass_i * velocity_i` unchanged; each `Add_force` call contributes
equal-and-opposite momentum changes; and on the reference configuration
(all bodies at rest, total momentum zero) the total momentum is zero after
every number of steps. -/
theorem momentum_conservation (n : ℕ) (dt : ℝ) (w : ℕ → Entity)
    (hm : ∀ i, i < n → (w i).mass ≠ 0)
    (ha : ∀ i, i < n → (w i).a_x = 0 ∧ (w i).a_y = 0) :
    (momX n (simStep n dt w) = momX n w ∧ momY n (simStep n dt w) = momY n w) ∧
    (∀ e1 e2 F, e1.mass ≠ 0 → e2.mass ≠ 0 →
      e1.mass * ((Add_force e1 e2 F).1.a_x - e1.a_x)
        + e2.mass * ((Add_force e1 e2 F).2.a_x - e2.a_x) = 0 ∧
      e1.mass * ((Add_force e1 e2 F).1.a_y - e1.a_y)
        + e2.mass * ((Add_force e1 e2 F).2.a_y - e2.a_y) = 0) ∧
    (∀ k, momX 3 (simRun k) = 0 ∧ momY 3 (simRun k) = 0) := by
  refine ⟨simStep_mom n dt w hm ha, ?_,
    fun k => ⟨(simRun_inv k).2.2.1, (simRun_inv k).2.2.2⟩⟩
  intro e1 e2 F h1 h2
  constructor
  · rw [Add_force_fst_ax, Add_force_snd_ax]
    field_simp
    ring
  · rw [Add_force_fst_ay, Add_force_snd_ay]
    field_simp
    ring

/-- Witness for `momentum_conservation`: one step on the reference
configuration preserves the (zero) x-momentum. -/
theorem momentum_conservation_witness :
    momX 3 (simStep 3 1 entities0) = momX 3 entities0 :=
  (momentum_conservation 3 1 entities0 entities0_mass entities0_acc).1.1

/-- CLAIM C9: mass is never modified — not by `Update`, `Add_force`, the
force phase, a whole simulation step, or any number of steps of the
reference run — the constructor stores the given mass unvalidated, and the
three reference masses are 1, 1, 2, all strictly positive. -/
theorem mass_invariant :
    (∀ m x y, (Entity.make m x y).mass = m) ∧
    (∀ e : Entity, ∀ dt : ℝ, (e.Update dt).mass = e.mass) ∧
    (∀ e1 e2 F, (Add_force e1 e2 F).1.mass = e1.mass ∧
      (Add_force e1 e2 F).2.mass = e2.mass) ∧
    (∀ n w i, ((forcePhase n w) i).mass = (w i).mass) ∧
    (∀ n dt w i, (simStep n dt w i).mass = (w i).mass) ∧
    (∀ k i, (simRun k i).mass = (entities0 i).mass) ∧
    ((entities0 0).mass = 1 ∧ (entities0 1).mass = 1 ∧ (entities0 2).mass = 2) ∧
    (0 < (entities0 0).mass ∧ 0 < (entities0 1).mass ∧ 0 < (entities0 2).mass) := by
  refine ⟨fun m x y => rfl, fun e dt => rfl, fun e1 e2 F => ⟨rfl, rfl⟩,
    fun n w i => (forcePhase_fields n w i).1,
    fun n dt w i => simStep_mass n dt w i, ?_, ?_, ?_⟩
  · intro k i
    induction k with
    | zero => rfl
    | succ k ih =>
      rw [simRun_succ, simStep_mass]
      exact ih
  · refine ⟨?_, ?_, ?_⟩ <;> norm_num [entities0, Entity.make]
  · refine ⟨?_, ?_, ?_⟩ <;> norm_num [entities0, Entity.make]

end

end Gravity
